import Mathlib

/-!
Verification of the MobSF MCP server (server.ts) against its specification.

The TypeScript source is shallowly embedded: pure string manipulation is
translated to Lean functions on `String` / `List Char`; effectful code
(filesystem probes, writes, deletions, HTTP calls, log appends) is modelled
by functions that additionally return the list of side-effect `Event`s they
perform, with the outcomes of external calls (the upstream MobSF service,
filesystem existence checks) supplied as explicit parameters.

JavaScript string operations are modelled at the character level
(`String.prototype.startsWith`, `slice`, `substring`, `endsWith`); JS indexes
by UTF-16 code units, the model indexes by characters, which agree on all
code points outside surrogate pairs.
-/

namespace MobsfMcp

/-- Model of JS `s.startsWith(pre)`. -/
def strStartsWith (s pre : String) : Bool := pre.data.isPrefixOf s.data

/-- Model of JS `s.endsWith(suf)`. -/
def strEndsWith (s suf : String) : Bool := suf.data.isSuffixOf s.data

/-- Model of JS `s.slice(n)` / `s.substring(n)`. -/
def strDrop (s : String) (n : Nat) : String := ⟨s.data.drop n⟩

/-- Model of JS `s.toLowerCase()` (ASCII range; the file suffixes compared
against are ASCII). -/
def strToLower (s : String) : String := ⟨s.data.map Char.toLower⟩

/-- Side effects performed by the server, in program order. -/
inductive Event where
  | existsCheck (path : String) (result : Bool)
  | readFile (path : String)
  | write (path : String) (bytes : List Nat)
  | unlink (path : String)
  | logAppend (msg : String)
  | httpPost (url : String)
  deriving DecidableEq, Repr

/-- Model of the `ToolResult` shape: every construction site in the source
builds `content` as a single text item, so the model keeps that one text;
an absent `isError` field (JS `undefined`, falsy) is modelled as `false`. -/
structure ToolResult where
  isError : Bool
  text : String
  deriving DecidableEq, Repr

/-- Truthiness of an optional environment variable in JS: `undefined` and the
empty string are falsy. -/
def envTruthy : Option String → Bool
  | none => false
  | some s => s != ""

/-- Model of `authenticateRequest` (server.ts). `timingSafeEqual` on the
UTF-8 encodings of two strings, guarded by the length equality check,
succeeds exactly when the strings are equal, so the comparison is modelled
as string equality. An empty `Authorization` header value is falsy in JS and
is handled by the `!authHeader` branch, like an absent header. -/
def authenticateRequest (mcpApiKey : String) (authHeader : Option String) :
    Option (Nat × Int × String) :=
  -- `none` models calling `next()` (request forwarded); `some (status, code, msg)`
  -- models the JSON error response.
  if mcpApiKey = "" then none
  else
    let h := authHeader.getD ""
    if h = "" then some (401, -32001, "Unauthorized: Missing Authorization header")
    else
      let token := if strStartsWith h "Bearer " then strDrop h 7 else h
      if token = mcpApiKey then none
      else some (403, -32002, "Forbidden: Invalid API key")

/-- Outcome of the `/mcp` endpoint handler before any tool dispatch. -/
inductive McpOutcome where
  | routedExisting (sessionId : String) (body : String)
  | newSession (body : String)
  | errorResp (status : Nat) (code : Int) (message : String)
  deriving DecidableEq, Repr

def getRequiresSessionMsg : String :=
  "Bad Request: GET requests require mcp-session-id header. Send POST with initialize request first."

def noValidSessionMsg : String :=
  "Bad Request: No valid session. Send an initialize request first."

/-- Model of `mcpHandler` (server.ts): `registry` is the key set of the
`transports` map, `sessionId` the `mcp-session-id` header (an empty header
value is falsy in JS). The request body is carried through untouched: the
handler never reads it before routing. -/
def mcpHandler (registry : List String) (method : String) (sessionId : Option String)
    (body : String) : McpOutcome :=
  let sid := sessionId.getD ""
  if sid != "" && registry.contains sid then .routedExisting sid body
  else if method == "POST" && sid == "" then .newSession body
  else if method == "GET" then .errorResp 400 (-32000) getRequiresSessionMsg
  else .errorResp 400 (-32000) noValidSessionMsg

/-- A character that ends a line for the JS regex dot (`.` without the `s`
flag does not match `\n`, `\r`, U+2028, U+2029). -/
def isLineTerm (c : Char) : Bool :=
  c == '\n' || c == '\r' || c == '\u2028' || c == '\u2029'

/-- One alternative of the fallback regex
`/^(\/Users\/[^\/]+|\/home\/[^\/]+)(\/.*)?$/` in `translatePath`: if `p`
begins with `pre` followed by a nonempty run of non-slash characters, return
the remainder captured by group 2 (`""` when the path ends right after the
home segment). `[^\/]+` is greedy and cannot contain `/`, and group 2 must
start with `/` or be absent, so the decomposition is forced; `.*` rejects
line terminators and `$` anchors at the very end of the string. -/
def homeTry (p : String) (pre : String) : Option String :=
  if strStartsWith p pre then
    let rest := p.data.drop pre.data.length
    let name := rest.takeWhile (fun c => !(c == '/'))
    if name.isEmpty then none
    else
      match rest.drop name.length with
      | [] => some ""
      | '/' :: t => if t.all (fun c => !isLineTerm c) then some ⟨'/' :: t⟩ else none
      | _ => none
  else none

/-- Model of `inputPath.match(/^(\/Users\/[^\/]+|\/home\/[^\/]+)(\/.*)?$/)`,
returning `homeMatch[2] || ''` on success. -/
def homeMatch (p : String) : Option String :=
  match homeTry p "/Users/" with
  | some r => some r
  | none => homeTry p "/home/"

/-- Model of the regex `/^[A-Za-z]:/` used for the Windows-path warning. -/
def isWinPath (p : String) : Bool :=
  match p.data with
  | c :: ':' :: _ => (('A' ≤ c && c ≤ 'Z') || ('a' ≤ c && c ≤ 'z'))
  | _ => false

/-- The reversed final path component: reversed input with trailing slashes
removed, up to (excluding) the next slash. Node's `path.posix` `basename`
and `extname` both operate on this trimmed last component. -/
def revLastComponent (cs : List Char) : List Char :=
  (cs.reverse.dropWhile (fun c => c == '/')).takeWhile (fun c => !(c == '/'))

/-- Extension of a path component given in reversed character order. Models
Node `path.posix.extname` restricted to the last component: the extension
runs from the last dot to the end, except that there is no extension when
the component has no dot, when its only leading character is the dot
(hidden files such as `.apk`), or when the component is exactly `".."`. -/
def extOfRev (rb : List Char) : List Char :=
  if rb.any (fun c => c == '.') then
    if rb.length - (rb.takeWhile (fun c => !(c == '.'))).length - 1 = 0 then []
    else if rb = ['.', '.'] then []
    else '.' :: (rb.takeWhile (fun c => !(c == '.'))).reverse
  else []

/-- Model of Node `path.extname` (posix). -/
def extname (p : String) : String := ⟨extOfRev (revLastComponent p.data)⟩

/-- Model of Node `path.basename` (posix, no extension argument). -/
def basenameOf (p : String) : String := ⟨(revLastComponent p.data).reverse⟩

def pathLogMsg (p t : String) : String := "Path translation: " ++ p ++ " -> " ++ t

def fallbackLogMsg (p t : String) : String :=
  "Path translation (fallback): " ++ p ++ " -> " ++ t

def winWarnMsg (p : String) : String :=
  "Warning: Windows paths not supported in Docker: " ++ p

/-- Model of `translatePath` (server.ts). `hostHome` is `process.env.HOST_HOME`
(absent or empty is falsy); `probe` is the value `fs.existsSync('/host_home')`
would return, i.e. the relevant filesystem state. The returned event list
records the side effects actually performed: the `existsSync` probe is only
evaluated when `hostHome` is falsy (JS `||` short-circuits), and `log`
appends to the log file on every rewrite and on the Windows-path warning. -/
def translatePath (inputPath : String) (hostHome : Option String) (probe : Bool) :
    String × List Event :=
  if strStartsWith inputPath "/workspace" || strStartsWith inputPath "/host_home" ||
      strStartsWith inputPath "/app/uploads" then
    (inputPath, [])
  else
    let hhT := envTruthy hostHome
    let probeEv : List Event := if hhT then [] else [Event.existsCheck "/host_home" probe]
    let isDocker := hhT || probe
    if isDocker = false then
      (inputPath, probeEv)
    else
      let hh := hostHome.getD ""
      if hhT && strStartsWith inputPath hh then
        let translated := "/host_home" ++ strDrop inputPath hh.data.length
        (translated, probeEv ++ [Event.logAppend (pathLogMsg inputPath translated)])
      else
        match homeMatch inputPath with
        | some rest =>
          let translated := "/host_home" ++ rest
          (translated, probeEv ++ [Event.logAppend (fallbackLogMsg inputPath translated)])
        | none =>
          let warnEv : List Event :=
            if isWinPath inputPath then [Event.logAppend (winWarnMsg inputPath)] else []
          (inputPath, probeEv ++ warnEv)

/-- Process-wide configuration and per-call environment: the startup
configuration values, the filesystem state consulted by the handlers, and
the `randomUUID()` value drawn for the current call. -/
structure Config where
  mobsfUrl : String
  uploadDir : String
  hostHome : Option String
  hostHomeDirExists : Bool
  fileExists : String → Bool
  uuid : String

/-- Diagnostic payload of a failed axios call (`error.response?.data`
stringified when present, otherwise `error.message || String(error)`,
which the model collapses into `message`). -/
structure UpstreamFailure where
  responseData : Option String
  message : String
  deriving DecidableEq, Repr

/-- A raw upstream JSON report, modelled as an association list from field
name to the field's (opaque, serialized) value. -/
abbrev RawReport := List (String × String)

/-- JS property lookup `report.key` on a raw report. -/
def rget (report : RawReport) (key : String) : Option String :=
  (report.find? (fun kv => kv.1 == key)).map (fun kv => kv.2)

/-- Outcomes of the three upstream calls made by one pipeline invocation,
plus the report endpoint reply used by `getReport`. -/
structure UpstreamBehavior where
  upload : Except UpstreamFailure (String × String)
  scan : Except UpstreamFailure Unit
  report : Except UpstreamFailure RawReport

/-- One projected field of a summary: either a direct copy of a report
field, or (for `certificate_analysis`) a field wrapped one level deeper
under `innerKey`. -/
inductive FieldVal where
  | field (v : Option String)
  | wrapped (innerKey : String) (v : Option String)
  deriving DecidableEq, Repr

/-- Model of `formatReport` (server.ts): the fixed android-package
projection when `scanType` is `"apk"`, otherwise the fixed ios-package
projection, each listing its output keys in source order. -/
def formatReport (report : RawReport) (scanType : String) : List (String × FieldVal) :=
  if scanType = "apk" then
    [("hash", .field (rget report "hash")),
     ("app_name", .field (rget report "app_name")),
     ("package_name", .field (rget report "package_name")),
     ("version_name", .field (rget report "version_name")),
     ("version_code", .field (rget report "version_code")),
     ("min_sdk", .field (rget report "min_sdk")),
     ("target_sdk", .field (rget report "target_sdk")),
     ("permissions", .field (rget report "permissions")),
     ("exported_activities", .field (rget report "exported_activities")),
     ("main_activity", .field (rget report "main_activity")),
     ("activities", .field (rget report "activities")),
     ("services", .field (rget report "services")),
     ("receivers", .field (rget report "receivers")),
     ("providers", .field (rget report "providers")),
     ("libraries", .field (rget report "libraries")),
     ("certificate_analysis", .wrapped "certificate_summary" (rget report "certificate_analysis")),
     ("manifest_analysis", .field (rget report "manifest_analysis")),
     ("android_api", .field (rget report "android_api")),
     ("code_analysis", .field (rget report "code_analysis")),
     ("urls", .field (rget report "urls")),
     ("domains", .field (rget report "domains")),
     ("firebase_urls", .field (rget report "firebase_urls")),
     ("trackers", .field (rget report "trackers")),
     ("network_security", .field (rget report "network_security")),
     ("security_score", .field (rget report "security_score")),
     ("average_cvss", .field (rget report "average_cvss"))]
  else
    [("hash", .field (rget report "hash")),
     ("app_name", .field (rget report "app_name")),
     ("bundle_id", .field (rget report "bundle_id")),
     ("version", .field (rget report "version")),
     ("build", .field (rget report "build")),
     ("min_ios_version", .field (rget report "min_os_version")),
     ("platform", .field (rget report "platform")),
     ("binary_archs", .field (rget report "archs")),
     ("entitlements", .field (rget report "entitlements")),
     ("url_schemes", .field (rget report "url_schemes")),
     ("binary_analysis", .field (rget report "binary_analysis")),
     ("macho_analysis", .field (rget report "macho_analysis")),
     ("code_analysis", .field (rget report "code_analysis")),
     ("file_analysis", .field (rget report "file_analysis")),
     ("urls", .field (rget report "urls")),
     ("domains", .field (rget report "domains")),
     ("security_score", .field (rget report "security_score")),
     ("average_cvss", .field (rget report "average_cvss"))]

/-- Rendering of an optional field value (JSON `null` for a missing field). -/
def renderVal : Option String → String
  | none => "null"
  | some v => v

def renderField : String × FieldVal → String
  | (k, .field v) => k ++ ": " ++ renderVal v
  | (k, .wrapped ik v) => k ++ ": [" ++ ik ++ ": " ++ renderVal v ++ "]"

/-- Model of `JSON.stringify(summary, null, 2)` at the abstraction level of
the embedding: a deterministic serialization of the projected summary. -/
def renderSummary (s : List (String × FieldVal)) : String :=
  String.intercalate ", " (s.map renderField)

/-- Model of `handleError` (server.ts): the message is the upstream response
body when present, otherwise the error's own message; the result is an
error `ToolResult`, and the failure is logged first. -/
def handleError (e : UpstreamFailure) (operation : String) : List Event × ToolResult :=
  let msg := match e.responseData with
    | some d => d
    | none => e.message
  ([Event.logAppend ("MobSF " ++ operation ++ " error: " ++ msg)],
   { isError := true, text := "MobSF " ++ operation ++ " failed: " ++ msg })

def uploadedLogMsg (hash fileName : String) : String :=
  "Uploaded successfully. Hash: " ++ hash ++ ", File: " ++ fileName

/-- Model of `uploadAndScan` (server.ts): three strictly sequential upstream
calls (upload, scan trigger, report retrieval); any failure propagates as a
thrown error (`Except.error`). The 5-minute / 10-minute / 1-minute timeouts
make a timed-out stage fail exactly like any other transport failure of
that stage, so a timeout is one of the `Except.error` outcomes. -/
def uploadAndScan (cfg : Config) (u : UpstreamBehavior) (filePath scanType : String) :
    List Event × Except UpstreamFailure ToolResult :=
  let uploadEv := [Event.readFile filePath, Event.httpPost (cfg.mobsfUrl ++ "/api/v1/upload")]
  match u.upload with
  | .error e => (uploadEv, .error e)
  | .ok (hash, fileName) =>
    let scanEv := uploadEv ++ [Event.logAppend (uploadedLogMsg hash fileName),
                               Event.httpPost (cfg.mobsfUrl ++ "/api/v1/scan")]
    match u.scan with
    | .error e => (scanEv, .error e)
    | .ok _ =>
      let reportEv := scanEv ++ [Event.httpPost (cfg.mobsfUrl ++ "/api/v1/report_json")]
      match u.report with
      | .error e => (reportEv, .error e)
      | .ok report =>
        (reportEv, .ok { isError := false, text := renderSummary (formatReport report scanType) })

/-- Model of `ext === ".apk" ? "apk" : ext === ".ipa" ? "ios" : null`. -/
def scanTypeOf (ext : String) : Option String :=
  if ext = ".apk" then some "apk" else if ext = ".ipa" then some "ios" else none

def unsupportedPathMsg : String := "Unsupported file type. Must be .apk or .ipa"

/-- The file-not-found message of `scanFilePath`: the verbose variant, with
the translated path and the Docker hint, exactly when translation changed
the path. -/
def notFoundMsg (filePath containerPath : String) : String :=
  if containerPath ≠ filePath then
    "File not found: " ++ filePath ++ "\nTranslated container path: " ++ containerPath ++
      "\n\nMake sure the file exists and is accessible from the Docker container."
  else
    "File not found: " ++ filePath

def uploadingLogMsg (containerPath filePath : String) : String :=
  "Uploading file from path: " ++ containerPath ++ " (original: " ++ filePath ++ ")"

/-- The path `translatePath` resolves an input path to under configuration
`cfg` (first component of the `translatePath` model). -/
def resolvedOf (cfg : Config) (p : String) : String :=
  (translatePath p cfg.hostHome cfg.hostHomeDirExists).1

/-- Model of `scanFilePath` (server.ts): translate the path, classify by the
lower-cased suffix of the translated path, reject unsupported suffixes,
check existence, then run the pipeline; pipeline failures are turned into
an error result by `handleError`. -/
def scanFilePath (cfg : Config) (u : UpstreamBehavior) (filePath : String) :
    List Event × ToolResult :=
  let tp := translatePath filePath cfg.hostHome cfg.hostHomeDirExists
  let containerPath := tp.1
  let ev0 := tp.2
  match scanTypeOf (strToLower (extname containerPath)) with
  | none => (ev0, { isError := true, text := unsupportedPathMsg })
  | some scanType =>
    let here := cfg.fileExists containerPath
    let ev1 := ev0 ++ [Event.existsCheck containerPath here]
    if here = false then
      (ev1, { isError := true, text := notFoundMsg filePath containerPath })
    else
      let ev2 := ev1 ++ [Event.logAppend (uploadingLogMsg containerPath filePath)]
      let run := uploadAndScan cfg u containerPath scanType
      match run.2 with
      | .ok res => (ev2 ++ run.1, res)
      | .error e =>
        let h := handleError e "scan file"
        (ev2 ++ run.1 ++ h.1, h.2)

/-- A character kept verbatim by the sanitizer regex class `[a-zA-Z0-9._-]`. -/
def isSafeChar (c : Char) : Bool :=
  ('a' ≤ c && c ≤ 'z') || ('A' ≤ c && c ≤ 'Z') || ('0' ≤ c && c ≤ '9') ||
    c == '.' || c == '_' || c == '-'

/-- Model of `path.basename(filename).replace(/[^a-zA-Z0-9._-]/g, '_')`:
directory components are stripped, then every character outside the safe
class is replaced by an underscore (the class matches single characters, so
the global replace acts characterwise). -/
def sanitizeFilename (filename : String) : String :=
  ⟨(basenameOf filename).data.map (fun c => if isSafeChar c then c else '_')⟩

/-- Model of `path.join(dir, name)` for the use in `scanFileBase64`: `name`
is a single nonempty slash-free component, for which posix `join` appends
it to `dir` as a final component. -/
def joinPath (dir name : String) : String := dir ++ "/" ++ name

/-- The staged file name chosen by `scanFileBase64`. -/
def tempNameOf (uuid filename : String) : String := uuid ++ "_" ++ sanitizeFilename filename

/-- The staged file path chosen by `scanFileBase64`. -/
def tempPathOf (cfg : Config) (filename : String) : String :=
  joinPath cfg.uploadDir (tempNameOf cfg.uuid filename)

/-- The base64 value of one character, `none` for every character outside
the standard alphabet. Node `Buffer.from(s, 'base64')` never throws: it
skips characters that carry no base64 value, which the model reflects by
`filterMap`-ing this partial map over the input. -/
def b64Val (c : Char) : Option Nat :=
  if 'A' ≤ c && c ≤ 'Z' then some (c.toNat - 65)
  else if 'a' ≤ c && c ≤ 'z' then some (c.toNat - 97 + 26)
  else if '0' ≤ c && c ≤ '9' then some (c.toNat - 48 + 52)
  else if c == '+' then some 62
  else if c == '/' then some 63
  else none

/-- Byte assembly over the surviving 6-bit values, including the lenient
handling of a trailing group of 2 or 3 values. -/
def b64Groups : List Nat → List Nat
  | a :: b :: c :: d :: rest =>
    (a * 4 + b / 16) :: ((b % 16) * 16 + c / 4) :: ((c % 4) * 64 + d) :: b64Groups rest
  | [a, b] => [a * 4 + b / 16]
  | [a, b, c] => [a * 4 + b / 16, (b % 16) * 16 + c / 4]
  | _ => []

/-- Model of `Buffer.from(content, "base64")`: total on every input string. -/
def base64Decode (s : String) : List Nat :=
  b64Groups (s.data.filterMap b64Val)

def unsupportedBase64Msg : String :=
  "Unsupported file type. Filename must end with .apk or .ipa"

def savedLogMsg (tempPath : String) : String := "Saved base64 file to: " ++ tempPath

/-- Whether `path` exists after the side effects in `tr` have run, for a
file that did not exist beforehand (the staged name contains the fresh
per-call UUID). This is what `fs.existsSync` observes in the cleanup
branch. -/
def fileExistsAfter (tr : List Event) (path : String) : Bool :=
  tr.foldl
    (fun st e =>
      match e with
      | Event.write q _ => if q = path then true else st
      | Event.unlink q => if q = path then false else st
      | _ => st)
    false

/-- Model of `scanFileBase64` (server.ts): classify by the filename suffix,
decode, stage to a fresh file in the upload directory, run the pipeline;
delete the staged file on success, and in the catch block delete it (after
an existence check) before the outer handler converts the error into an
error result. The staged write itself is modelled as succeeding, which is
the scope of the disposal guarantee. -/
def scanFileBase64 (cfg : Config) (u : UpstreamBehavior) (filename content : String) :
    List Event × ToolResult :=
  match scanTypeOf (strToLower (extname filename)) with
  | none => ([], { isError := true, text := unsupportedBase64Msg })
  | some scanType =>
    let buffer := base64Decode content
    let tempPath := tempPathOf cfg filename
    let ev0 := [Event.write tempPath buffer, Event.logAppend (savedLogMsg tempPath)]
    let run := uploadAndScan cfg u tempPath scanType
    match run.2 with
    | .ok res => (ev0 ++ run.1 ++ [Event.unlink tempPath], res)
    | .error e =>
      let still := fileExistsAfter (ev0 ++ run.1) tempPath
      let cleanup := Event.existsCheck tempPath still ::
        (if still then [Event.unlink tempPath] else [])
      let h := handleError e "scan base64 file"
      (ev0 ++ run.1 ++ cleanup ++ h.1, h.2)

/-- Model of `getReport` (server.ts): call the report endpoint, infer the
scan type from the suffix of `report.file_name` (optional chaining: an
absent field yields `undefined`, which is falsy, hence `"apk"`), then
project with `formatReport`. -/
def getReport (cfg : Config) (u : UpstreamBehavior) (hash : String) :
    List Event × ToolResult :=
  let ev := [Event.httpPost (cfg.mobsfUrl ++ "/api/v1/report_json")]
  match u.report with
  | .error e =>
    let h := handleError e "get report"
    (ev ++ h.1, h.2)
  | .ok report =>
    let scanType := match rget report "file_name" with
      | some fn => if strEndsWith fn ".ipa" then "ios" else "apk"
      | none => "apk"
    (ev, { isError := false, text := renderSummary (formatReport report scanType) })

/-- Model of `listScans` (server.ts) together with its dispatch site: the
optional `page` / `page_size` arguments arrive as `undefined` when absent,
so the JS default parameters `page = 1, pageSize = 10` apply; the outgoing
form is returned alongside the run so the wire contents can be inspected.
The listing endpoint's reply (an opaque serialized value) is passed through
into the result text unmodified. -/
def listScans (cfg : Config)
    (listing : List (String × String) → Except UpstreamFailure String)
    (page pageSize : Option Int) :
    List (String × String) × (List Event × ToolResult) :=
  let form := [("page", toString (page.getD 1)), ("page_size", toString (pageSize.getD 10))]
  let ev := [Event.httpPost (cfg.mobsfUrl ++ "/api/v1/scans")]
  match listing form with
  | .ok data => (form, (ev, { isError := false, text := data }))
  | .error e =>
    let h := handleError e "list scans"
    (form, (ev ++ h.1, h.2))

/-- Predicate picking out the deletion event of a given path. -/
def isUnlinkOf (path : String) : Event → Bool
  | Event.unlink q => q == path
  | _ => false

/-- A `HOST_HOME` configuration that does not end in a path separator
(unset or empty values are vacuously fine: they are falsy and never used
as a prefix). Appending the remainder of the caller path to `/host_home`
preserves the final path component exactly under this condition. -/
def hostHomeSafe : Option String → Prop
  | none => True
  | some h => h.data.getLast? ≠ some '/'

end MobsfMcp

namespace MobsfMcp


end MobsfMcp

namespace MobsfMcp

/-! ### General helper lemmas -/

theorem strData_append (a b : String) : (a ++ b).data = a.data ++ b.data := rfl

theorem strEq_of_data {a b : String} (h : a.data = b.data) : a = b := String.ext h

/-- `takeWhile` of an append is decided inside the left part as soon as the
left part has an element failing the predicate. -/
theorem takeWhile_append_of_mem_neg {α : Type} {p : α → Bool} {a : List α} (b : List α)
    {x : α} (hx : x ∈ a) (hpx : p x = false) :
    (a ++ b).takeWhile p = a.takeWhile p := by
  induction a with
  | nil => cases hx
  | cons c cs ih =>
    cases hc : p c with
    | false => simp [List.takeWhile_cons, hc]
    | true =>
      rcases List.mem_cons.mp hx with rfl | hmem
      · rw [hc] at hpx; cases hpx
      · simp [List.takeWhile_cons, hc, ih hmem]

theorem length_takeWhile_lt_of_mem_neg {α : Type} {p : α → Bool} {a : List α}
    {x : α} (hx : x ∈ a) (hpx : p x = false) :
    (a.takeWhile p).length < a.length := by
  induction a with
  | nil => cases hx
  | cons c cs ih =>
    cases hc : p c with
    | false => simp [List.takeWhile_cons, hc]
    | true =>
      rcases List.mem_cons.mp hx with rfl | hmem
      · rw [hc] at hpx; cases hpx
      · simpa [List.takeWhile_cons, hc] using ih hmem

/-- Dropping as many elements as `takeWhile` keeps yields `dropWhile`. -/
theorem drop_length_takeWhile {α : Type} (p : α → Bool) (l : List α) :
    l.drop (l.takeWhile p).length = l.dropWhile p := by
  induction l with
  | nil => rfl
  | cons c cs ih =>
    cases hc : p c with
    | false => simp [List.takeWhile_cons, List.dropWhile_cons, hc]
    | true => simp [List.takeWhile_cons, List.dropWhile_cons, hc, ih]

theorem reverse_head_of_ne_nil {α : Type} {l : List α} (h : l ≠ []) :
    ∃ c cs, l.reverse = c :: cs ∧ l.getLast? = some c := by
  induction l with
  | nil => cases h rfl
  | cons a l ih =>
    cases l with
    | nil => exact ⟨a, [], rfl, rfl⟩
    | cons b t =>
      obtain ⟨c, cs, hrev, hlast⟩ := ih (by simp)
      refine ⟨c, cs ++ [a], ?_, ?_⟩
      · simp only [List.reverse_cons, hrev, List.cons_append]
      · rwa [List.getLast?_cons_cons]

theorem data_ne_nil_of_ne_empty {s : String} (h : s ≠ "") : s.data ≠ [] := by
  intro hd
  exact h (strEq_of_data hd)

/-- A string prefix decomposes the data of the larger string. -/
theorem data_eq_of_strStartsWith {s pre : String} (h : strStartsWith s pre = true) :
    s.data = pre.data ++ s.data.drop pre.data.length := by
  have hp : pre.data <+: s.data := List.isPrefixOf_iff_prefix.mp h
  exact (List.prefix_iff_eq_append.mp hp).symm

theorem strStartsWith_append (pre rest : String) :
    strStartsWith (pre ++ rest) pre = true := by
  apply List.isPrefixOf_iff_prefix.mpr
  rw [strData_append]
  exact List.prefix_append _ _

/-! ### Claim C2 — gateway authentication -/

/-- C2 (counterexample): the claim says a request whose `Authorization`
header value is exactly the configured credential `K` is always forwarded.
For `K = "Bearer x"` the handler first strips the `"Bearer "` prefix from
the header, compares `"x"` against `"Bearer x"`, and rejects the request. -/
theorem c2_auth_counterexample :
    authenticateRequest "Bearer x" (some "Bearer x") =
      some (403, -32002, "Forbidden: Invalid API key") := by decide

/-- C2 (amended): with no credential configured every request is allowed;
with a credential `K` configured, a request is forwarded if and only if its
`Authorization` header is exactly `"Bearer " ++ K`, or exactly `K` provided
`K` does not itself begin with `"Bearer "`; in particular an absent (or
empty, which is falsy) header is rejected. -/
theorem c2_auth_amended (key : String) (h : Option String) :
    authenticateRequest "" h = none ∧
    (key ≠ "" →
      (authenticateRequest key h = none ↔
        h = some ("Bearer " ++ key) ∨
          (h = some key ∧ strStartsWith key "Bearer " = false))) := by
  constructor
  · simp [authenticateRequest]
  · intro hk
    have hbk : ("Bearer " ++ key) ≠ "" := by
      intro he
      have := congrArg String.data he
      rw [strData_append] at this
      simp at this
    cases h with
    | none =>
      simp [authenticateRequest, hk]
    | some s =>
      by_cases hs : s = ""
      · subst hs
        simp only [authenticateRequest, if_neg hk, Option.getD_some, if_pos rfl]
        constructor
        · intro hcontra; cases hcontra
        · rintro (hc | ⟨hc, _⟩)
          · exact absurd (Option.some.inj hc).symm hbk
          · exact absurd (Option.some.inj hc).symm hk
      · by_cases hsw : strStartsWith s "Bearer " = true
        · have hdec : s = "Bearer " ++ strDrop s 7 := by
            apply strEq_of_data
            rw [strData_append]
            exact data_eq_of_strStartsWith hsw
          simp only [authenticateRequest, if_neg hk, Option.getD_some, if_neg hs, hsw,
            if_true]
          constructor
          · intro hall
            left
            by_cases htk : strDrop s 7 = key
            · rw [hdec, htk]
            · rw [if_neg htk] at hall; cases hall
          · rintro (hc | ⟨hc, hns⟩)
            · have hsv : s = "Bearer " ++ key := Option.some.inj hc
              have : strDrop s 7 = key := by
                apply strEq_of_data
                show (s.data).drop 7 = key.data
                rw [hsv, strData_append]
                exact List.drop_left' rfl
              rw [if_pos this]
            · have hsv : s = key := Option.some.inj hc
              rw [hsv] at hsw
              rw [hsw] at hns
              cases hns
        · have hswf : strStartsWith s "Bearer " = false := by
            cases hval : strStartsWith s "Bearer " with
            | false => rfl
            | true => exact absurd hval hsw
          simp only [authenticateRequest, if_neg hk, Option.getD_some, if_neg hs, hswf,
            Bool.false_eq_true, if_false]
          constructor
          · intro hall
            by_cases htk : s = key
            · right
              exact ⟨by rw [htk], by rw [← htk]; exact hswf⟩
            · rw [if_neg htk] at hall; cases hall
          · rintro (hc | ⟨hc, _⟩)
            · have hsv : s = "Bearer " ++ key := Option.some.inj hc
              rw [hsv, strStartsWith_append] at hswf
              cases hswf
            · have hsv : s = key := Option.some.inj hc
              rw [if_pos hsv]

/-- C2 amended witness: the theorem applied at a concrete credential and
header. -/
theorem c2_auth_amended_witness :
    authenticateRequest "secret" (some "Bearer secret") = none :=
  ((c2_auth_amended "secret" (some "Bearer secret")).2 (by decide)).mpr (Or.inl rfl)

end MobsfMcp

namespace MobsfMcp

theorem mem_probeEv {c : Prop} [Decidable c] {b : Bool} {e : Event}
    (he : e ∈ (if c then ([] : List Event) else [Event.existsCheck "/host_home" b])) :
    ∃ r, e = Event.existsCheck "/host_home" r := by
  split at he
  · simp at he
  · simp at he; exact ⟨b, he⟩

theorem translate_events_shape (p : String) (hh : Option String) (b : Bool) :
    ∀ e ∈ (translatePath p hh b).2,
      (∃ r, e = Event.existsCheck "/host_home" r) ∨ ∃ m, e = Event.logAppend m := by
  intro e he
  unfold translatePath at he
  split at he
  · simp at he
  · simp only [] at he
    split at he
    · exact Or.inl (mem_probeEv he)
    · split at he
      · rw [List.mem_append] at he
        rcases he with he | he
        · exact Or.inl (mem_probeEv he)
        · simp at he
          exact Or.inr ⟨_, he⟩
      · split at he
        · rw [List.mem_append] at he
          rcases he with he | he
          · exact Or.inl (mem_probeEv he)
          · simp at he
            exact Or.inr ⟨_, he⟩
        · rw [List.mem_append] at he
          rcases he with he | he
          · exact Or.inl (mem_probeEv he)
          · split at he
            · simp at he
              exact Or.inr ⟨_, he⟩
            · simp at he

/-- C3 (counterexample): the claim says the result of `translatePath` is
independent of the filesystem state and that it performs no filesystem
reads. With `HOST_HOME` unset, the code evaluates
`fs.existsSync('/host_home')`, and on `/Users/alice/app.apk` the result is
`/host_home/app.apk` when that directory exists but the path unchanged when
it does not. -/
theorem c3_translate_fs_dependence_counterexample :
    (translatePath "/Users/alice/app.apk" none true).1 ≠
      (translatePath "/Users/alice/app.apk" none false).1 := by decide

/-- C3 (amended): `translatePath` is a pure function of the input path, the
`HOST_HOME` configuration, and the existence of the `/host_home` directory.
When `HOST_HOME` is configured (nonempty) its result and side effects are
independent of the filesystem state; and in every case its only filesystem
interactions are the single existence probe of the fixed path `/host_home`
(performed only when `HOST_HOME` is falsy) and appends to the log file. -/
theorem c3_translate_amended (p : String) (hh : Option String) (b b' : Bool) :
    (envTruthy hh = true → translatePath p hh b = translatePath p hh b') ∧
    (∀ e ∈ (translatePath p hh b).2,
      (∃ r, e = Event.existsCheck "/host_home" r) ∨ ∃ m, e = Event.logAppend m) := by
  refine ⟨?_, translate_events_shape p hh b⟩
  intro hT
  unfold translatePath
  split
  · rfl
  · simp [hT]

/-- C3 amended witness: the theorem applied at a concrete path and
configuration. -/
theorem c3_translate_amended_witness :
    translatePath "/data/f.apk" (some "/Users/u") true =
      translatePath "/data/f.apk" (some "/Users/u") false :=
  (c3_translate_amended "/data/f.apk" (some "/Users/u") true false).1 (by decide)

/-- C6 (counterexample): the claim says every request carrying an unknown
session identifier receives the same message regardless of HTTP method. A
GET with an unknown identifier receives the GET-specific message, while a
POST receives the generic no-valid-session message, so the two responses
differ. -/
theorem c6_method_dependent_counterexample :
    mcpHandler [] "GET" (some "deadbeef") "" ≠ mcpHandler [] "POST" (some "deadbeef") "" := by
  decide

/-- C6 (amended): every request carrying an unknown nonempty session
identifier is rejected with HTTP 400 and JSON-RPC code `-32000`, regardless
of HTTP method, and without the request body (hence the operation name)
being consulted; all non-GET methods receive the identical
no-valid-session message, while GET receives a distinct message that asks
for the `mcp-session-id` header. -/
theorem c6_unknown_session_amended (registry : List String) (method sid body : String)
    (hne : sid ≠ "") (hun : registry.contains sid = false) :
    mcpHandler registry method (some sid) body =
      McpOutcome.errorResp 400 (-32000)
        (if method = "GET" then getRequiresSessionMsg else noValidSessionMsg) := by
  have h1 : (sid != "") = true := bne_iff_ne.mpr hne
  have h2 : (sid == "") = false := beq_eq_false_iff_ne.mpr hne
  have h0 : sid ∉ registry := by simpa using hun
  by_cases hm : method = "GET"
  · subst hm
    simp [mcpHandler, h1, h2, h0]
  · have h3 : (method == "GET") = false := beq_eq_false_iff_ne.mpr hm
    simp [mcpHandler, h1, h2, h0, h3, hm]

/-- C6 amended witness: the theorem applied at a concrete registry, method
and identifier. -/
theorem c6_unknown_session_amended_witness :
    mcpHandler ["a"] "DELETE" (some "b") "x" =
      McpOutcome.errorResp 400 (-32000) noValidSessionMsg := by
  have h := c6_unknown_session_amended ["a"] "DELETE" "b" "x" (by decide) (by decide)
  simpa using h

/-- C7: `getReport` infers the artifact kind from the suffix of the
`file_name` field of the upstream report: when the filename is present and
ends in `.ipa` the result is the ios-package projection of that report, and
otherwise — including when the field is absent — the android-package
projection. -/
theorem c7_report_projection (cfg : Config) (u : UpstreamBehavior) (hash : String)
    (report : RawReport) (hrep : u.report = .ok report) :
    ((∃ fn, rget report "file_name" = some fn ∧ strEndsWith fn ".ipa" = true) →
      (getReport cfg u hash).2 =
        { isError := false, text := renderSummary (formatReport report "ios") }) ∧
    ((∀ fn, rget report "file_name" = some fn → strEndsWith fn ".ipa" = false) →
      (getReport cfg u hash).2 =
        { isError := false, text := renderSummary (formatReport report "apk") }) := by
  constructor
  · rintro ⟨fn, hfn, hend⟩
    simp [getReport, hrep, hfn, hend]
  · intro hall
    cases hr : rget report "file_name" with
    | none => simp [getReport, hrep, hr]
    | some fn => simp [getReport, hrep, hr, hall fn hr]

/-- C7 witness: the theorem applied to a stub upstream whose report
filename ends in `.ipa`. -/
theorem c7_report_projection_witness :
    (getReport ⟨"m", "d", none, false, fun _ => false, "u"⟩
      ⟨Except.ok ("h", "f"), Except.ok (), Except.ok [("file_name", "app.ipa")]⟩ "deadbeef").2 =
      { isError := false,
        text := renderSummary (formatReport [("file_name", "app.ipa")] "ios") } :=
  (c7_report_projection ⟨"m", "d", none, false, fun _ => false, "u"⟩
      ⟨Except.ok ("h", "f"), Except.ok (), Except.ok [("file_name", "app.ipa")]⟩ "deadbeef"
      [("file_name", "app.ipa")] rfl).1
    ⟨"app.ipa", by decide, by decide⟩

/-- C8: the staged file of `scanFileBase64` is a direct child of the
staging directory: the chosen name is the per-call random token, an
underscore, and the sanitized basename of the caller filename; every
character of the sanitized part lies in the conservative class
`[a-zA-Z0-9._-]`; the whole name contains no path separator; and two calls
with distinct (well-formed, 36-character) tokens always choose distinct
names. -/
theorem c8_staging_path (cfg : Config) (filename : String)
    (hlen : cfg.uuid.data.length = 36) (hsl : '/' ∉ cfg.uuid.data) :
    tempPathOf cfg filename = cfg.uploadDir ++ "/" ++ tempNameOf cfg.uuid filename ∧
    tempNameOf cfg.uuid filename = cfg.uuid ++ "_" ++ sanitizeFilename filename ∧
    (∀ c ∈ (sanitizeFilename filename).data, isSafeChar c = true) ∧
    '/' ∉ (tempNameOf cfg.uuid filename).data ∧
    (∀ uuid2 filename2 : String, uuid2.data.length = 36 → cfg.uuid ≠ uuid2 →
      tempNameOf cfg.uuid filename ≠ tempNameOf uuid2 filename2) := by
  have hdata : ∀ u f : String, (tempNameOf u f).data = u.data ++ '_' :: (sanitizeFilename f).data := by
    intro u f
    show ((u ++ "_") ++ sanitizeFilename f).data = _
    rw [strData_append, strData_append]
    simp
  have hsafe : ∀ c ∈ (sanitizeFilename filename).data, isSafeChar c = true := by
    intro c hc
    simp only [sanitizeFilename] at hc
    rcases List.mem_map.mp hc with ⟨a, _, rfl⟩
    by_cases ha : isSafeChar a = true
    · rw [if_pos ha]; exact ha
    · rw [if_neg ha]; decide
  refine ⟨rfl, rfl, hsafe, ?_, ?_⟩
  · intro hmem
    rw [hdata] at hmem
    rcases List.mem_append.mp hmem with h1 | h2
    · exact hsl h1
    · rcases List.mem_cons.mp h2 with h3 | h4
      · cases h3
      · exact absurd (hsafe _ h4) (by decide)
  · intro uuid2 filename2 hlen2 hne heq
    apply hne
    have hd := congrArg String.data heq
    rw [hdata, hdata] at hd
    exact strEq_of_data (List.append_inj hd (hlen.trans hlen2.symm)).1

/-- C8 witness: the theorem applied at two concrete distinct UUIDs. -/
theorem c8_staging_path_witness :
    tempNameOf "00000000-0000-4000-8000-000000000000" "a.apk" ≠
      tempNameOf "11111111-1111-4111-8111-111111111111" "b.apk" :=
  (c8_staging_path ⟨"m", "/app/uploads", none, false, fun _ => false,
      "00000000-0000-4000-8000-000000000000"⟩ "a.apk" (by decide) (by decide)).2.2.2.2
    "11111111-1111-4111-8111-111111111111" "b.apk" (by decide) (by decide)

/-- C9: calling `listScans` with neither argument sends `page=1` and
`page_size=10` in the outgoing form, and on success the upstream response
is passed through into the result unmodified. -/
theorem c9_list_scans_defaults (cfg : Config)
    (listing : List (String × String) → Except UpstreamFailure String) :
    (listScans cfg listing none none).1 = [("page", "1"), ("page_size", "10")] ∧
    (∀ d, listing [("page", "1"), ("page_size", "10")] = .ok d →
      (listScans cfg listing none none).2.2 = { isError := false, text := d }) := by
  have hp : toString (1 : Int) = "1" := by decide
  have hq : toString (10 : Int) = "10" := by decide
  constructor
  · cases h : listing [("page", "1"), ("page_size", "10")] <;>
      simp [listScans, hp, hq, h]
  · intro d hd
    simp [listScans, hp, hq, hd]

/-- C9 witness: the theorem applied to a stub listing endpoint. -/
theorem c9_list_scans_defaults_witness :
    (listScans ⟨"m", "d", none, false, fun _ => false, "u"⟩
      (fun _ => Except.ok "DATA") none none).2.2 =
      { isError := false, text := "DATA" } :=
  (c9_list_scans_defaults ⟨"m", "d", none, false, fun _ => false, "u"⟩
    (fun _ => Except.ok "DATA")).2 "DATA" rfl

end MobsfMcp

namespace MobsfMcp

theorem filterMap_filter_isSome {α β : Type} (f : α → Option β) (l : List α) :
    l.filterMap f = (l.filter (fun c => (f c).isSome)).filterMap f := by
  induction l with
  | nil => rfl
  | cons c cs ih =>
    cases hc : f c with
    | none => simp [List.filterMap_cons, List.filter_cons, hc, ih]
    | some v => simp [List.filterMap_cons, List.filter_cons, hc, ih]

/-- C1: for every `scanFileBase64` invocation with a supported filename
suffix (the staged write itself succeeding, which is the scope of the
guarantee), the staged file is deleted exactly once — the trace contains
exactly one unlink of the staged path — and the file is absent after the
call returns, on the success path and on every failure path of the
three-stage pipeline. -/
theorem c1_inline_disposal (cfg : Config) (u : UpstreamBehavior) (filename content : String)
    (h : (scanTypeOf (strToLower (extname filename))).isSome = true) :
    (scanFileBase64 cfg u filename content).1.countP (isUnlinkOf (tempPathOf cfg filename)) = 1 ∧
    fileExistsAfter (scanFileBase64 cfg u filename content).1 (tempPathOf cfg filename) = false := by
  rcases hst : scanTypeOf (strToLower (extname filename)) with _ | st
  · rw [hst] at h; cases h
  · rcases hu : u.upload with e | ⟨hash, fn⟩
    · simp [scanFileBase64, hst, uploadAndScan, hu, handleError, fileExistsAfter, isUnlinkOf]
    · rcases hs : u.scan with e | _
      · simp [scanFileBase64, hst, uploadAndScan, hu, hs, handleError, fileExistsAfter, isUnlinkOf]
      · rcases hr : u.report with e | rep
        · simp [scanFileBase64, hst, uploadAndScan, hu, hs, hr, handleError, fileExistsAfter,
            isUnlinkOf]
        · simp [scanFileBase64, hst, uploadAndScan, hu, hs, hr, handleError, fileExistsAfter,
            isUnlinkOf]

/-- C10: the base64 decode of `scanFileBase64` is total and lenient — for
every content string, valid base64 or not, the decoded bytes (computed by
silently dropping every character outside the base64 alphabet) are staged
and the upload is sent upstream; the result is never a malformed-encoding
client error: an error result only ever reports an upstream pipeline
failure. -/
theorem c10_base64_lenient (cfg : Config) (u : UpstreamBehavior)
    (filename content : String) (st : String)
    (hst : scanTypeOf (strToLower (extname filename)) = some st) :
    Event.write (tempPathOf cfg filename) (base64Decode content) ∈
      (scanFileBase64 cfg u filename content).1 ∧
    Event.httpPost (cfg.mobsfUrl ++ "/api/v1/upload") ∈ (scanFileBase64 cfg u filename content).1 ∧
    base64Decode content =
      base64Decode ⟨content.data.filter (fun c => (b64Val c).isSome)⟩ ∧
    ((scanFileBase64 cfg u filename content).2.isError = true →
      ∃ e, (uploadAndScan cfg u (tempPathOf cfg filename) st).2 = Except.error e ∧
        (scanFileBase64 cfg u filename content).2 = (handleError e "scan base64 file").2) := by
  have hdec : base64Decode content =
      base64Decode ⟨content.data.filter (fun c => (b64Val c).isSome)⟩ :=
    congrArg b64Groups (filterMap_filter_isSome b64Val content.data)
  rcases hu : u.upload with e | ⟨hash, fn⟩
  · refine ⟨?_, ?_, hdec, ?_⟩
    · simp [scanFileBase64, hst, uploadAndScan, hu]
    · simp [scanFileBase64, hst, uploadAndScan, hu]
    · intro _
      exact ⟨e, by simp [uploadAndScan, hu], by simp [scanFileBase64, hst, uploadAndScan, hu]⟩
  · rcases hs : u.scan with e | _
    · refine ⟨?_, ?_, hdec, ?_⟩
      · simp [scanFileBase64, hst, uploadAndScan, hu, hs]
      · simp [scanFileBase64, hst, uploadAndScan, hu, hs]
      · intro _
        exact ⟨e, by simp [uploadAndScan, hu, hs],
          by simp [scanFileBase64, hst, uploadAndScan, hu, hs]⟩
    · rcases hr : u.report with e | rep
      · refine ⟨?_, ?_, hdec, ?_⟩
        · simp [scanFileBase64, hst, uploadAndScan, hu, hs, hr]
        · simp [scanFileBase64, hst, uploadAndScan, hu, hs, hr]
        · intro _
          exact ⟨e, by simp [uploadAndScan, hu, hs, hr],
            by simp [scanFileBase64, hst, uploadAndScan, hu, hs, hr]⟩
      · refine ⟨?_, ?_, hdec, ?_⟩
        · simp [scanFileBase64, hst, uploadAndScan, hu, hs, hr]
        · simp [scanFileBase64, hst, uploadAndScan, hu, hs, hr]
        · intro hfalse
          simp [scanFileBase64, hst, uploadAndScan, hu, hs, hr] at hfalse

/-- C4: whenever `scanFilePath` fails because no file exists at the
resolved path, the error text contains both the original caller-supplied
path and the resolved path as substrings — for every input path, including
paths left unchanged by resolution, where the two coincide. -/
theorem c4_not_found_both_paths (cfg : Config) (u : UpstreamBehavior) (filePath : String)
    (hsup : (scanTypeOf (strToLower (extname (resolvedOf cfg filePath)))).isSome = true)
    (hmiss : cfg.fileExists (resolvedOf cfg filePath) = false) :
    (scanFilePath cfg u filePath).2 =
      { isError := true, text := notFoundMsg filePath (resolvedOf cfg filePath) } ∧
    (∃ a b, notFoundMsg filePath (resolvedOf cfg filePath) = a ++ filePath ++ b) ∧
    (∃ a b, notFoundMsg filePath (resolvedOf cfg filePath) =
      a ++ resolvedOf cfg filePath ++ b) := by
  have hboth : ∀ fp cp : String,
      (∃ a b, notFoundMsg fp cp = a ++ fp ++ b) ∧ (∃ a b, notFoundMsg fp cp = a ++ cp ++ b) := by
    intro fp cp
    by_cases hc : cp = fp
    · subst hc
      refine ⟨⟨"File not found: ", "", ?_⟩, ⟨"File not found: ", "", ?_⟩⟩ <;>
        · apply strEq_of_data
          simp [notFoundMsg, strData_append]
    · have hne : cp ≠ fp := hc
      constructor
      · refine ⟨"File not found: ",
          "\nTranslated container path: " ++ cp ++
            "\n\nMake sure the file exists and is accessible from the Docker container.", ?_⟩
        apply strEq_of_data
        simp [notFoundMsg, hne, strData_append]
      · refine ⟨"File not found: " ++ fp ++ "\nTranslated container path: ",
          "\n\nMake sure the file exists and is accessible from the Docker container.", ?_⟩
        apply strEq_of_data
        simp [notFoundMsg, hne, strData_append]
  refine ⟨?_, (hboth filePath (resolvedOf cfg filePath)).1, (hboth filePath (resolvedOf cfg filePath)).2⟩
  rcases hst : scanTypeOf (strToLower (extname (resolvedOf cfg filePath))) with _ | st
  · rw [hst] at hsup; cases hsup
  · simp [scanFilePath, resolvedOf] at hst hmiss ⊢
    simp [hst, hmiss]

/-- C1 witness: the theorem applied at a concrete configuration and a
successful pipeline. -/
theorem c1_inline_disposal_witness :
    (scanFileBase64 ⟨"m", "/app/uploads", none, false, fun _ => false, "u1"⟩
        ⟨Except.ok ("h", "f"), Except.ok (), Except.ok []⟩ "app.apk" "QUJD").1.countP
      (isUnlinkOf (tempPathOf ⟨"m", "/app/uploads", none, false, fun _ => false, "u1"⟩
        "app.apk")) = 1 ∧
    fileExistsAfter
      (scanFileBase64 ⟨"m", "/app/uploads", none, false, fun _ => false, "u1"⟩
        ⟨Except.ok ("h", "f"), Except.ok (), Except.ok []⟩ "app.apk" "QUJD").1
      (tempPathOf ⟨"m", "/app/uploads", none, false, fun _ => false, "u1"⟩ "app.apk") = false :=
  c1_inline_disposal _ _ "app.apk" "QUJD" (by decide)

/-- C10 witness: the theorem applied to a content string that is not valid
base64. -/
theorem c10_base64_lenient_witness :
    Event.write (tempPathOf ⟨"m", "/app/uploads", none, false, fun _ => false, "u1"⟩ "b.apk")
        (base64Decode "!!not-base64!!") ∈
      (scanFileBase64 ⟨"m", "/app/uploads", none, false, fun _ => false, "u1"⟩
        ⟨Except.ok ("h", "f"), Except.ok (), Except.ok []⟩ "b.apk" "!!not-base64!!").1 :=
  (c10_base64_lenient ⟨"m", "/app/uploads", none, false, fun _ => false, "u1"⟩
    ⟨Except.ok ("h", "f"), Except.ok (), Except.ok []⟩ "b.apk" "!!not-base64!!" "apk"
    (by decide)).1

/-- C4 witness: the theorem applied at a concrete missing path. -/
theorem c4_not_found_both_paths_witness :
    (scanFilePath ⟨"m", "/app/uploads", none, false, fun _ => false, "u1"⟩
      ⟨Except.ok ("h", "f"), Except.ok (), Except.ok []⟩ "/data/app.apk").2 =
      { isError := true,
        text := notFoundMsg "/data/app.apk"
          (resolvedOf ⟨"m", "/app/uploads", none, false, fun _ => false, "u1"⟩
            "/data/app.apk") } :=
  (c4_not_found_both_paths ⟨"m", "/app/uploads", none, false, fun _ => false, "u1"⟩
    ⟨Except.ok ("h", "f"), Except.ok (), Except.ok []⟩ "/data/app.apk" (by decide) rfl).1

/-- C5 (counterexample): the claim says an unsupported-suffix rejection
happens without touching the filesystem. For `/data/app.exe` with
`HOST_HOME` unset, the rejection is returned, but the trace already
contains the `fs.existsSync('/host_home')` probe performed by
`translatePath` before the suffix check. -/
theorem c5_probe_counterexample :
    (scanFilePath ⟨"m", "/app/uploads", none, true, fun _ => false, "u1"⟩
      ⟨Except.ok ("h", "f"), Except.ok (), Except.ok []⟩ "/data/app.exe").2 =
      { isError := true, text := unsupportedPathMsg } ∧
    Event.existsCheck "/host_home" true ∈
      (scanFilePath ⟨"m", "/app/uploads", none, true, fun _ => false, "u1"⟩
        ⟨Except.ok ("h", "f"), Except.ok (), Except.ok []⟩ "/data/app.exe").1 := by
  decide

end MobsfMcp

namespace MobsfMcp

theorem mem_of_getLast?_eq {α : Type} {l : List α} {a : α} (h : l.getLast? = some a) :
    a ∈ l := by
  induction l with
  | nil => cases h
  | cons b t ih =>
    cases t with
    | nil =>
      have : b = a := by simpa using h
      simp [this]
    | cons c u =>
      rw [List.getLast?_cons_cons] at h
      exact List.mem_cons_of_mem _ (ih h)

theorem extOfRev_append_dotA {A B : List Char} {d0 : Char} (hmem : d0 ∈ A)
    (hd0 : (d0 == '.') = true) (hB : 1 ≤ B.length) (hne2 : A ++ B ≠ ['.', '.']) :
    extOfRev (A ++ B) = '.' :: (A.takeWhile (fun c => !(c == '.'))).reverse := by
  have hqd : (fun c => !(c == '.')) d0 = false := by simp [hd0]
  have htw : (A ++ B).takeWhile (fun c => !(c == '.')) = A.takeWhile (fun c => !(c == '.')) :=
    takeWhile_append_of_mem_neg _ hmem hqd
  have hlt := length_takeWhile_lt_of_mem_neg (p := fun c => !(c == '.')) hmem hqd
  have hany : (A ++ B).any (fun c => c == '.') = true := by
    refine List.any_eq_true.mpr ⟨d0, List.mem_append_left _ hmem, hd0⟩
  have hlen : (A ++ B).length = A.length + B.length := List.length_append _ _
  unfold extOfRev
  rw [if_pos hany, htw]
  rw [if_neg (by omega), if_neg hne2]

theorem scanType_ext_swap (x rest : List Char)
    (hx : ∃ c cs, x.reverse = c :: cs ∧ (c == '/') = false)
    (h : scanTypeOf (strToLower ⟨extOfRev (revLastComponent (x ++ rest))⟩) = none) :
    scanTypeOf (strToLower ⟨extOfRev (revLastComponent ("/host_home".data ++ rest))⟩) = none := by
  obtain ⟨c, cs, hxr, hcs⟩ := hx
  have hrc : ∀ z : List Char, revLastComponent (z ++ rest) =
      ((rest.reverse ++ z.reverse).dropWhile (fun c => c == '/')).takeWhile
        (fun c => !(c == '/')) := by
    intro z
    unfold revLastComponent
    rw [List.reverse_append]
  rw [hrc] at h ⊢
  by_cases hA : rest.reverse.dropWhile (fun c => c == '/') = []
  · rw [List.dropWhile_append, if_pos (by simp [hA])]
    decide
  · obtain ⟨a, A', hAeq⟩ := List.exists_cons_of_ne_nil hA
    have hsplit : ∀ z : List Char, (rest.reverse ++ z).dropWhile (fun c => c == '/') =
        (a :: A') ++ z := by
      intro z
      rw [List.dropWhile_append, if_neg (by simp [hAeq]), hAeq]
    rw [hsplit] at h ⊢
    by_cases hslash : ∃ s ∈ (a :: A'), (s == '/') = true
    · obtain ⟨s0, hs0mem, hs0⟩ := hslash
      have hq0 : (fun c => !(c == '/')) s0 = false := by simp [hs0]
      rw [takeWhile_append_of_mem_neg _ hs0mem hq0] at h ⊢
      exact h
    · have hq : ∀ s ∈ (a :: A'), (fun c => !(c == '/')) s = true := by
        intro s hs
        cases hv : s == '/' with
        | true => exact absurd ⟨s, hs, hv⟩ hslash
        | false => simp [hv]
      rw [List.takeWhile_append_of_pos hq] at h ⊢
      have hXt : x.reverse.takeWhile (fun c => !(c == '/')) =
          c :: cs.takeWhile (fun c => !(c == '/')) := by
        rw [hxr]
        simp [List.takeWhile_cons, hcs]
      rw [hXt] at h
      have hHH : ("/host_home".data.reverse).takeWhile (fun c => !(c == '/')) =
          "emoh_tsoh".data := by decide
      rw [hHH]
      by_cases hdot : ∃ s ∈ (a :: A'), (s == '.') = true
      · obtain ⟨d0, hd0mem, hd0⟩ := hdot
        have hne2E : (a :: A') ++ "emoh_tsoh".data ≠ ['.', '.'] := by
          intro he
          have hl := congrArg List.length he
          rw [List.length_append] at hl
          simp at hl
        rw [extOfRev_append_dotA hd0mem hd0 (by decide) hne2E]
        by_cases htail : (a :: A').takeWhile (fun c => !(c == '.')) = []
        · rw [htail]
          decide
        · have hne2X : (a :: A') ++ (c :: cs.takeWhile (fun c => !(c == '/'))) ≠ ['.', '.'] := by
            intro he
            have hl := congrArg List.length he
            rw [List.length_append] at hl
            simp at hl
            have hA0 : A'.length = 0 ∧ (cs.takeWhile (fun c => !(c == '/'))).length = 0 := by
              omega
            have hA'nil : A' = [] := List.length_eq_zero.mp hA0.1
            have hKnil : cs.takeWhile (fun c => !(c == '/')) = [] := List.length_eq_zero.mp hA0.2
            subst hA'nil
            rw [hKnil] at he
            simp at he
            apply htail
            rw [he.1]
            decide
          rw [extOfRev_append_dotA hd0mem hd0 (by simp) hne2X] at h
          exact h
      · have hnodotA : ∀ s ∈ (a :: A'), (s == '.') = false := by
          intro s hs
          cases hv : s == '.' with
          | true => exact absurd ⟨s, hs, hv⟩ hdot
          | false => rfl
        have hany : ((a :: A') ++ "emoh_tsoh".data).any (fun c => c == '.') = false := by
          rw [List.any_append]
          have h1 : (a :: A').any (fun c => c == '.') = false := by
            rw [List.any_eq_false]
            intro s hs
            simp [hnodotA s hs]
          have h2 : ("emoh_tsoh".data).any (fun c => c == '.') = false := by decide
          rw [h1, h2]
          rfl
        have hcond : ¬(((a :: A') ++ "emoh_tsoh".data).any (fun c => c == '.') = true) := by
          rw [hany]
          simp
        unfold extOfRev
        rw [if_neg hcond]
        decide

theorem takeWhile_drop_decomp {α : Type} (p : α → Bool) (l : List α) :
    l = l.takeWhile p ++ l.drop (l.takeWhile p).length := by
  rw [drop_length_takeWhile, List.takeWhile_append_dropWhile]

theorem homeTry_decomp {p pre r : String} (h : homeTry p pre = some r) :
    ∃ x : List Char, p.data = x ++ r.data ∧
      ∃ c cs, x.reverse = c :: cs ∧ (c == '/') = false := by
  unfold homeTry at h
  split at h
  case isTrue hsw =>
    simp only [] at h
    split at h
    case isTrue => cases h
    case isFalse hnm =>
      have hnm' : List.takeWhile (fun c => !(c == '/'))
          (List.drop pre.data.length p.data) ≠ [] := by
        intro hnil
        exact hnm (by rw [hnil]; rfl)
      obtain ⟨c, cs0, hrev, hlast⟩ := reverse_head_of_ne_nil hnm'
      have hcm : c ∈ List.takeWhile (fun c => !(c == '/')) (List.drop pre.data.length p.data) :=
        mem_of_getLast?_eq hlast
      have hcq : (c == '/') = false := by
        have := List.mem_takeWhile_imp hcm
        simpa using this
      split at h
      · rename_i heq
        have hr : r = "" := (Option.some.inj h).symm
        have hdecomp := takeWhile_drop_decomp (fun c => !(c == '/'))
          (List.drop pre.data.length p.data)
        rw [heq, List.append_nil] at hdecomp
        refine ⟨pre.data ++ List.takeWhile (fun c => !(c == '/'))
          (List.drop pre.data.length p.data), ?_, c, cs0 ++ pre.data.reverse, ?_, hcq⟩
        · have hrd : ("" : String).data = [] := rfl
          rw [hr, hrd, List.append_nil]
          conv_lhs => rw [data_eq_of_strStartsWith hsw]
          exact congrArg _ hdecomp
        · rw [List.reverse_append, hrev]
          rfl
      · rename_i t heq
        split at h
        · have hr : r = ⟨'/' :: t⟩ := (Option.some.inj h).symm
          have hdecomp := takeWhile_drop_decomp (fun c => !(c == '/'))
            (List.drop pre.data.length p.data)
          rw [heq] at hdecomp
          refine ⟨pre.data ++ List.takeWhile (fun c => !(c == '/'))
            (List.drop pre.data.length p.data), ?_, c, cs0 ++ pre.data.reverse, ?_, hcq⟩
          · have hrd : (⟨'/' :: t⟩ : String).data = '/' :: t := rfl
            rw [hr, hrd]
            conv_lhs => rw [data_eq_of_strStartsWith hsw]
            rw [List.append_assoc]
            exact congrArg _ hdecomp
          · rw [List.reverse_append, hrev]
            rfl
        · cases h
      · rename_i hne1 hne2
        cases h
  case isFalse => cases h

theorem homeMatch_decomp {p r : String} (h : homeMatch p = some r) :
    ∃ x : List Char, p.data = x ++ r.data ∧
      ∃ c cs, x.reverse = c :: cs ∧ (c == '/') = false := by
  unfold homeMatch at h
  split at h
  · rename_i r0 hr0
    have : r0 = r := Option.some.inj h
    subst this
    exact homeTry_decomp hr0
  · exact homeTry_decomp h

theorem scanType_resolved_none (p : String) (hh : Option String) (b : Bool)
    (hsafe : hostHomeSafe hh)
    (h : scanTypeOf (strToLower (extname p)) = none) :
    scanTypeOf (strToLower (extname (translatePath p hh b).1)) = none := by
  unfold translatePath
  split
  · exact h
  · simp only []
    split
    · exact h
    · split
      · rename_i hcond
        have hand := hcond
        rw [Bool.and_eq_true] at hand
        obtain ⟨hT, hSW⟩ := hand
        obtain ⟨h0, hh0⟩ : ∃ h0, hh = some h0 := by
          cases hh with
          | none => simp [envTruthy] at hT
          | some v => exact ⟨v, rfl⟩
        subst hh0
        have h0ne : h0 ≠ "" := by
          simpa [envTruthy] using hT
        have hxne : h0.data ≠ [] := data_ne_nil_of_ne_empty h0ne
        obtain ⟨c, cs, hrev, hlast⟩ := reverse_head_of_ne_nil hxne
        simp only [hostHomeSafe] at hsafe
        have hcs : (c == '/') = false := by
          cases hv : c == '/' with
          | false => rfl
          | true =>
            have hceq : c = '/' := by simpa using hv
            rw [hceq] at hlast
            exact absurd hlast hsafe
        have hSW' : strStartsWith p h0 = true := by simpa using hSW
        have hdecomp := data_eq_of_strStartsWith hSW'
        simp only [Option.getD_some]
        show scanTypeOf (strToLower ⟨extOfRev (revLastComponent
          ("/host_home" ++ strDrop p h0.data.length).data)⟩) = none
        have hgd : ("/host_home" ++ strDrop p h0.data.length).data
            = "/host_home".data ++ List.drop h0.data.length p.data := rfl
        rw [hgd]
        apply scanType_ext_swap h0.data (List.drop h0.data.length p.data) ⟨c, cs, hrev, hcs⟩
        rw [← hdecomp]
        exact h
      · split
        · rename_i rest0 hmatch
          obtain ⟨x, hpd, hx⟩ := homeMatch_decomp hmatch
          show scanTypeOf (strToLower ⟨extOfRev (revLastComponent
            ("/host_home" ++ rest0).data)⟩) = none
          have hgd : ("/host_home" ++ rest0).data = "/host_home".data ++ rest0.data := rfl
          rw [hgd]
          apply scanType_ext_swap x rest0.data hx
          rw [← hpd]
          exact h
        · exact h

/-- C5 (amended): for every input path whose lower-cased suffix is neither
`.apk` nor `.ipa` — provided `HOST_HOME`, when set, does not end in a path
separator, so that path translation preserves the suffix — `scanFilePath`
returns the unsupported-file-type error, and the only filesystem
interactions before the rejection are the path translator's existence
probe of the fixed path `/host_home` and log appends: the artifact path
itself is never checked, read, or written. -/
theorem c5_unsupported_amended (cfg : Config) (u : UpstreamBehavior) (filePath : String)
    (hsafe : hostHomeSafe cfg.hostHome)
    (hext : scanTypeOf (strToLower (extname filePath)) = none) :
    (scanFilePath cfg u filePath).2 = { isError := true, text := unsupportedPathMsg } ∧
    ∀ e ∈ (scanFilePath cfg u filePath).1,
      (∃ r, e = Event.existsCheck "/host_home" r) ∨ ∃ m, e = Event.logAppend m := by
  have hnone := scanType_resolved_none filePath cfg.hostHome cfg.hostHomeDirExists hsafe hext
  constructor
  · simp [scanFilePath, hnone]
  · intro e he
    have htr : (scanFilePath cfg u filePath).1 =
        (translatePath filePath cfg.hostHome cfg.hostHomeDirExists).2 := by
      simp [scanFilePath, hnone]
    rw [htr] at he
    exact translate_events_shape _ _ _ e he

/-- C5 amended witness: the theorem applied at a concrete unsupported
path. -/
theorem c5_unsupported_amended_witness :
    (scanFilePath ⟨"m", "/app/uploads", none, false, fun _ => false, "u1"⟩
      ⟨Except.ok ("h", "f"), Except.ok (), Except.ok []⟩ "/data/app.exe").2 =
      { isError := true, text := unsupportedPathMsg } :=
  (c5_unsupported_amended ⟨"m", "/app/uploads", none, false, fun _ => false, "u1"⟩
    ⟨Except.ok ("h", "f"), Except.ok (), Except.ok []⟩ "/data/app.exe"
    trivial (by decide)).1

end MobsfMcp
